import Mathlib

/-! # Verification of the rotools persistence layer

Shallow embedding of `src/rows.rs` (flat-file CSV record store `Rows<S>`)
and `src/dict.rs` (persy-backed key-value store `Dict<K, V>`), with
theorems settling the specification claims.

The flat-file backend is modelled at record granularity: a backing file is
the number of header rows physically present plus the list of data records
in file order.  Serialization of rows is abstracted away (records are held
as typed values), since no claim about the flat-file backend turns on row
encoding.  The persy index engine behind `Dict` is external to the
repository; it is modelled at its documented interface (`ValueMode::Replace`
puts, point lookup, full-range scan), while the code of `src/dict.rs` on top
of it is translated directly.
-/

namespace Rotools

/-- A CSV backing file: the number of header rows physically present in the
file and the data records in file order.  A freshly created store file is
`⟨0, []⟩` (zero bytes on disk). -/
structure CsvFile (S : Type) where
  headers : Nat
  records : List S
deriving DecidableEq

/-- `file.metadata()?.len() == 0` in `Rows::insert_multiple`: the file is zero
bytes exactly when it holds no header row and no records. -/
def CsvFile.sizeIsZero {S : Type} (f : CsvFile S) : Bool :=
  f.headers == 0 && f.records.isEmpty

/-- The invariant satisfied by every file reachable through the `Rows` API: a
single header row is present exactly when the file holds at least one record,
and headers are never duplicated. -/
def CsvFile.Wf {S : Type} (f : CsvFile S) : Prop :=
  f.headers = if f.records.isEmpty then 0 else 1

/-- `Rows::read_all`: deserialize every row of the file.  For well-formed
files the csv reader (headers enabled) yields exactly the data records in
file order; row decoding cannot fail in the model because records are typed. -/
def CsvFile.read_all {S : Type} (f : CsvFile S) : List S :=
  f.records

/-- A `csv::Writer` with the given `has_headers` configuration writing `rows`
into a freshly created file.  The csv crate emits the header row lazily,
together with the first `serialize` call, so a writer that serializes no
record leaves a zero-byte file even when `has_headers` is set. -/
def writeRows {S : Type} (hasHeaders : Bool) (rows : List S) : CsvFile S :=
  ⟨if hasHeaders && !rows.isEmpty then 1 else 0, rows⟩

/-- A `csv::Writer` over a file opened in append mode (the `insert` path):
rows are appended after the existing content and a header row is (lazily)
emitted first iff `hasHeaders` is set and at least one row is serialized. -/
def appendRows {S : Type} (hasHeaders : Bool) (f : CsvFile S) (rows : List S) :
    CsvFile S :=
  ⟨f.headers + (if hasHeaders && !rows.isEmpty then 1 else 0),
   f.records ++ rows⟩

/-- `reader.position().byte()` as evaluated in `Rows::with_temp_file`: the
reader has been created but nothing has been read from it yet, so the
position is `0` whatever the file contains. -/
def readerPosByte {S : Type} (_f : CsvFile S) : Nat := 0

/-- `Rows::with_temp_file`: stream the records of the current file through
`g` into a freshly created temporary file whose writer is configured with
`has_headers(reader.position().byte() == 0)`, then rename the temporary file
over the original.  The renamed temporary file is the new file state. -/
def CsvFile.with_temp_file {S : Type} (f : CsvFile S) (g : List S → List S) :
    CsvFile S :=
  writeRows (readerPosByte f == 0) (g f.read_all)

/-- `Rows::insert_multiple`: empty input returns at once; otherwise append
all rows, emitting a header only when the file is zero bytes at append
time. -/
def CsvFile.insert_multiple {S : Type} (f : CsvFile S) (data : List S) :
    CsvFile S :=
  if data.isEmpty then f else appendRows f.sizeIsZero f data

/-- The `HashMap<Id, S>` built in `Rows::update_multiple` by collecting
`(piece.id(), piece)` pairs in input order: a later pair with the same
identifier overwrites an earlier one.  Modelled as the lookup function of
that map. -/
def updatesMap {S I : Type} [DecidableEq I] (getId : S → I) (data : List S) :
    I → Option S :=
  data.foldl (fun m piece => fun i => if i = getId piece then some piece else m i)
    (fun _ => none)

/-- `Rows::update_multiple`: empty input returns at once; otherwise rewrite
the file, substituting each record whose identifier occurs in the updates
map and keeping every other record. -/
def CsvFile.update_multiple {S I : Type} [DecidableEq I] (getId : S → I)
    (f : CsvFile S) (data : List S) : CsvFile S :=
  if data.isEmpty then f
  else f.with_temp_file
    (fun rs => rs.map (fun r => (updatesMap getId data (getId r)).getD r))

/-- `Rows::member`: scan all records for the identifier. -/
def CsvFile.member {S I : Type} [DecidableEq I] (getId : S → I)
    (f : CsvFile S) (i : I) : Bool :=
  f.read_all.any (fun x => decide (getId x = i))

/-- `Rows::delete`: return at once when the identifier is absent (no rewrite
is performed); otherwise rewrite the file keeping every record whose
identifier differs.  The boolean records whether the temp-file rewrite was
performed. -/
def CsvFile.delete {S I : Type} [DecidableEq I] (getId : S → I)
    (f : CsvFile S) (i : I) : CsvFile S × Bool :=
  if !(f.member getId i) then (f, false)
  else (f.with_temp_file (fun rs => rs.filter (fun r => decide (getId r ≠ i))),
        true)

/-- `Rows::overwrite`: reject an empty input before touching the file (the
truncating `File::create` happens only after the emptiness check); otherwise
truncate and write all rows with a default writer (headers enabled).  The
`Option String` component is the error, `none` on success; on an error the
first component is the unchanged prior file. -/
def CsvFile.overwrite {S : Type} (f : CsvFile S) (data : List S) :
    CsvFile S × Option String :=
  if data.isEmpty then (f, some "Data is empty!")
  else (writeRows true data, none)

/-- The backing file right after `Rows::new` on a fresh path: zero bytes. -/
def CsvFile.empty {S : Type} : CsvFile S := ⟨0, []⟩

/-- `Rows::size`: number of records parsed by `read_all`. -/
def CsvFile.size {S : Type} (f : CsvFile S) : Nat :=
  f.read_all.length

/-- The record type used by the repository's own tests (`Scaf` in
`src/rows.rs`), for concrete witnesses and counterexamples. -/
structure Scaf where
  id : Nat
  ok : Bool
  amount : Int
deriving DecidableEq

/-! ## Lemmas about the updates map of `Rows::update_multiple` -/

theorem updatesMap_nil {S I : Type} [DecidableEq I] (getId : S → I) (i : I) :
    updatesMap getId [] i = none := rfl

theorem updatesMap_concat {S I : Type} [DecidableEq I] (getId : S → I)
    (l : List S) (a : S) (i : I) :
    updatesMap getId (l ++ [a]) i =
      if i = getId a then some a else updatesMap getId l i := by
  unfold updatesMap
  rw [List.foldl_append]
  rfl

theorem updatesMap_eq_none_iff {S I : Type} [DecidableEq I] (getId : S → I)
    (data : List S) (i : I) :
    updatesMap getId data i = none ↔ ∀ u ∈ data, getId u ≠ i := by
  induction data using List.reverseRecOn with
  | nil => simp [updatesMap_nil]
  | append_singleton l a ih =>
    rw [updatesMap_concat]
    by_cases h : i = getId a
    · rw [if_pos h]
      simp only [List.mem_append, List.mem_singleton]
      constructor
      · intro hc
        exact absurd hc (by simp)
      · intro H
        exact absurd h.symm (H a (Or.inr rfl))
    · rw [if_neg h, ih]
      constructor
      · intro H u hu
        rcases List.mem_append.mp hu with h1 | h1
        · exact H u h1
        · rw [List.mem_singleton.mp h1]
          exact fun hc => h hc.symm
      · intro H u hu
        exact H u (List.mem_append.mpr (Or.inl hu))

theorem updatesMap_eq_some_last {S I : Type} [DecidableEq I] (getId : S → I)
    (data : List S) (i : I) (u : S)
    (h : updatesMap getId data i = some u) :
    ∃ k, ∃ hk : k < data.length,
      data[k] = u ∧ getId u = i ∧
      ∀ m, ∀ hm : m < data.length, k < m → getId data[m] ≠ i := by
  induction data using List.reverseRecOn with
  | nil => simp [updatesMap_nil] at h
  | append_singleton l a ih =>
    rw [updatesMap_concat] at h
    by_cases hc : i = getId a
    · rw [if_pos hc] at h
      refine ⟨l.length, by simp, ?_, ?_, ?_⟩
      · rw [← Option.some_inj.mp h]
        exact List.getElem_concat_length l a l.length rfl (by simp)
      · rw [← Option.some_inj.mp h]
        exact hc.symm
      · intro m hm hlt
        simp only [List.length_append, List.length_singleton] at hm
        omega
    · rw [if_neg hc] at h
      obtain ⟨k, hk, hget, hid, hlast⟩ := ih h
      refine ⟨k, by simp only [List.length_append, List.length_singleton]; omega,
        ?_, hid, ?_⟩
      · rw [List.getElem_append_left hk]
        exact hget
      · intro m hm hlt
        by_cases hm2 : m < l.length
        · rw [List.getElem_append_left hm2]
          exact hlast m hm2 hlt
        · have hme : m = l.length := by
            simp only [List.length_append, List.length_singleton] at hm
            omega
          have : (l ++ [a])[m] = a :=
            List.getElem_concat_length l a m hme hm
          rw [this]
          exact fun hx => hc hx.symm

theorem updatesMap_mem_of_eq_some {S I : Type} [DecidableEq I] (getId : S → I)
    (data : List S) (i : I) (u : S)
    (h : updatesMap getId data i = some u) :
    u ∈ data ∧ getId u = i := by
  obtain ⟨k, hk, hget, hid, -⟩ := updatesMap_eq_some_last getId data i u h
  exact ⟨hget ▸ List.getElem_mem hk, hid⟩

/-! ## Characterizations of the flat-file operations -/

theorem update_multiple_records_eq {S I : Type} [DecidableEq I]
    (getId : S → I) (f : CsvFile S) (data : List S) (hne : data ≠ []) :
    (CsvFile.update_multiple getId f data).records =
      f.records.map (fun r => (updatesMap getId data (getId r)).getD r) := by
  unfold CsvFile.update_multiple CsvFile.with_temp_file writeRows readerPosByte
  rw [if_neg (by simp [hne])]
  rfl

theorem updated_record_id {S I : Type} [DecidableEq I] (getId : S → I)
    (data : List S) (r : S) :
    getId ((updatesMap getId data (getId r)).getD r) = getId r := by
  cases h : updatesMap getId data (getId r) with
  | none => rfl
  | some u =>
    simpa using (updatesMap_mem_of_eq_some getId data (getId r) u h).2

theorem insert_multiple_records_eq {S : Type} (f : CsvFile S) (data : List S) :
    (f.insert_multiple data).records = f.records ++ data := by
  unfold CsvFile.insert_multiple appendRows
  by_cases hd : data.isEmpty
  · rw [if_pos hd]
    rw [List.isEmpty_iff.mp hd]
    simp
  · rw [if_neg hd]

theorem insert_multiple_headers_eq {S : Type} (f : CsvFile S) (data : List S) :
    (f.insert_multiple data).headers =
      f.headers + (if f.sizeIsZero && !data.isEmpty then 1 else 0) := by
  unfold CsvFile.insert_multiple appendRows
  by_cases hd : data.isEmpty
  · rw [if_pos hd]
    simp [hd]
  · rw [if_neg hd]

/-! ## Claim theorems for the flat-file record store -/

/-- C1: for every store file content and every non-empty update list,
`update`/`updateMany` replaces each existing record whose identifier matches
a supplied update with that update in place, keeps every non-matching record
unchanged, preserves the original record order, does not insert any supplied
record whose identifier is absent from the file (the identifier sequence of
the file is unchanged position by position), and leaves the record count
unchanged. -/
theorem update_multiple_merges_by_id {S I : Type} [DecidableEq I]
    (getId : S → I) (f : CsvFile S) (data : List S) (hne : data ≠ []) :
    (CsvFile.update_multiple getId f data).records.length =
      f.records.length ∧
    (CsvFile.update_multiple getId f data).records.map getId =
      f.records.map getId ∧
    ∀ j, ∀ hj : j < f.records.length,
      ((∀ u ∈ data, getId u ≠ getId f.records[j]) →
        (CsvFile.update_multiple getId f data).records[j]? =
          some f.records[j]) ∧
      ((∃ u ∈ data, getId u = getId f.records[j]) →
        ∃ u, u ∈ data ∧ getId u = getId f.records[j] ∧
          (CsvFile.update_multiple getId f data).records[j]? = some u) := by
  have hrec := update_multiple_records_eq getId f data hne
  refine ⟨?_, ?_, ?_⟩
  · rw [hrec, List.length_map]
  · rw [hrec, List.map_map]
    apply List.map_congr_left
    intro r _
    exact updated_record_id getId data r
  · intro j hj
    constructor
    · intro hno
      have hnone : updatesMap getId data (getId f.records[j]) = none :=
        (updatesMap_eq_none_iff getId data (getId f.records[j])).mpr hno
      rw [hrec, List.getElem?_map, List.getElem?_eq_getElem hj]
      simp [hnone]
    · rintro ⟨u0, hu0, hid0⟩
      cases hsome : updatesMap getId data (getId f.records[j]) with
      | none =>
        exact absurd hid0
          ((updatesMap_eq_none_iff getId data (getId f.records[j])).mp
            hsome u0 hu0)
      | some u =>
        obtain ⟨hmem, hid⟩ :=
          updatesMap_mem_of_eq_some getId data (getId f.records[j]) u hsome
        refine ⟨u, hmem, hid, ?_⟩
        rw [hrec, List.getElem?_map, List.getElem?_eq_getElem hj]
        simp [hsome]

/-- C1 witness: a concrete two-record file and a single-record update list. -/
theorem update_multiple_merges_by_id_witness :
    (([(⟨2, true, 7⟩ : Scaf)] : List Scaf) ≠ []) ∧
    ((CsvFile.update_multiple Scaf.id
        (⟨1, [⟨1, true, 5⟩, ⟨2, false, 3⟩]⟩ : CsvFile Scaf)
        [⟨2, true, 7⟩]).records.length =
      (⟨1, [⟨1, true, 5⟩, ⟨2, false, 3⟩]⟩ : CsvFile Scaf).records.length ∧
    (CsvFile.update_multiple Scaf.id
        (⟨1, [⟨1, true, 5⟩, ⟨2, false, 3⟩]⟩ : CsvFile Scaf)
        [⟨2, true, 7⟩]).records.map Scaf.id =
      (⟨1, [⟨1, true, 5⟩, ⟨2, false, 3⟩]⟩ : CsvFile Scaf).records.map Scaf.id ∧
    ∀ j, ∀ hj : j <
        (⟨1, [⟨1, true, 5⟩, ⟨2, false, 3⟩]⟩ : CsvFile Scaf).records.length,
      ((∀ u ∈ ([⟨2, true, 7⟩] : List Scaf), Scaf.id u ≠
          Scaf.id (⟨1, [⟨1, true, 5⟩, ⟨2, false, 3⟩]⟩ : CsvFile Scaf).records[j]) →
        (CsvFile.update_multiple Scaf.id
            (⟨1, [⟨1, true, 5⟩, ⟨2, false, 3⟩]⟩ : CsvFile Scaf)
            [⟨2, true, 7⟩]).records[j]? =
          some (⟨1, [⟨1, true, 5⟩, ⟨2, false, 3⟩]⟩ : CsvFile Scaf).records[j]) ∧
      ((∃ u ∈ ([⟨2, true, 7⟩] : List Scaf), Scaf.id u =
          Scaf.id (⟨1, [⟨1, true, 5⟩, ⟨2, false, 3⟩]⟩ : CsvFile Scaf).records[j]) →
        ∃ u, u ∈ ([⟨2, true, 7⟩] : List Scaf) ∧ Scaf.id u =
          Scaf.id (⟨1, [⟨1, true, 5⟩, ⟨2, false, 3⟩]⟩ : CsvFile Scaf).records[j] ∧
          (CsvFile.update_multiple Scaf.id
              (⟨1, [⟨1, true, 5⟩, ⟨2, false, 3⟩]⟩ : CsvFile Scaf)
              [⟨2, true, 7⟩]).records[j]? = some u)) :=
  ⟨by decide,
   update_multiple_merges_by_id Scaf.id
     (⟨1, [⟨1, true, 5⟩, ⟨2, false, 3⟩]⟩ : CsvFile Scaf)
     [⟨2, true, 7⟩] (by decide)⟩

/-- C2: `overwrite` applied to an empty record sequence returns an error and
leaves the file's prior contents untouched (the emptiness check happens
before the truncating file creation). -/
theorem overwrite_empty_errors_state_unchanged {S : Type} (f : CsvFile S) :
    (f.overwrite []).2 = some "Data is empty!" ∧ (f.overwrite []).1 = f :=
  ⟨rfl, rfl⟩

/-- C4: `readAll()` after `insertMany(rs)` on an empty flat-file store
returns records equal to `rs` in the same order as supplied. -/
theorem read_all_after_insert_multiple_roundtrip {S : Type} (rs : List S) :
    (CsvFile.empty.insert_multiple rs).read_all = rs := by
  cases rs with
  | nil => rfl
  | cons a l => rfl

/-- C5 counterexample: for file `⟨1, [{id := 0}]⟩` and the absent identifier
`5`, `delete` returns without performing the temp-file rewrite — refuting the
claim that "a no-op rewrite is still performed" when the identifier is
absent. -/
theorem delete_absent_no_rewrite_cex :
    CsvFile.member Scaf.id (⟨1, [⟨0, true, 10⟩]⟩ : CsvFile Scaf) 5 = false ∧
    (CsvFile.delete Scaf.id (⟨1, [⟨0, true, 10⟩]⟩ : CsvFile Scaf) 5).2 =
      false := by
  decide

/-- C5 amended: `delete(identifier)` for an identifier not present succeeds,
leaves every stored record (and the whole file) unchanged and the record
count unchanged; no rewrite is performed — the operation returns early after
its membership check. -/
theorem delete_absent_noop {S I : Type} [DecidableEq I] (getId : S → I)
    (f : CsvFile S) (i : I) (habs : ∀ r ∈ f.read_all, getId r ≠ i) :
    CsvFile.delete getId f i = (f, false) := by
  have hm : f.member getId i = false := by
    unfold CsvFile.member
    rw [List.any_eq_false]
    intro x hx
    simpa using habs x hx
  unfold CsvFile.delete
  rw [hm]
  rfl

/-- C5 witness: concrete one-record file, absent identifier `5`. -/
theorem delete_absent_noop_witness :
    (∀ r ∈ (⟨1, [(⟨0, true, 10⟩ : Scaf)]⟩ : CsvFile Scaf).read_all,
      Scaf.id r ≠ 5) ∧
    CsvFile.delete Scaf.id (⟨1, [⟨0, true, 10⟩]⟩ : CsvFile Scaf) 5 =
      ((⟨1, [⟨0, true, 10⟩]⟩ : CsvFile Scaf), false) :=
  ⟨by decide,
   delete_absent_noop Scaf.id (⟨1, [⟨0, true, 10⟩]⟩ : CsvFile Scaf) 5
     (by decide)⟩

/-- C6 counterexample: deleting the sole record of a non-empty file performs
the rewrite, and the temporary file that replaces the original carries no
header even though the source file had content — refuting "the temporary
file carries a header exactly when the source file already had content". -/
theorem temp_file_header_cex :
    ((⟨1, [(⟨0, true, 10⟩ : Scaf)]⟩ : CsvFile Scaf).sizeIsZero = false) ∧
    (CsvFile.delete Scaf.id (⟨1, [⟨0, true, 10⟩]⟩ : CsvFile Scaf) 0).2 =
      true ∧
    (CsvFile.delete Scaf.id
        (⟨1, [⟨0, true, 10⟩]⟩ : CsvFile Scaf) 0).1.headers = 0 := by
  decide

/-- C6 amended: insert/insertMany emit a header row only when the file is
zero bytes at append time, so repeated appends never duplicate headers (a
well-formed file stays well-formed and its header count stays at most 1);
the temporary file written by the update/delete rewrite carries a header
exactly when at least one record is written to it — not exactly when the
source file had content, since deleting the last record yields a headerless
empty temporary file. -/
theorem header_invariant {S : Type} (f : CsvFile S) (data : List S)
    (hwf : f.Wf) :
    (f.insert_multiple data).Wf ∧
    (f.insert_multiple data).headers ≤ 1 ∧
    (f.sizeIsZero = false → (f.insert_multiple data).headers = f.headers) ∧
    ∀ g : List S → List S,
      (f.with_temp_file g).Wf ∧
      ((f.with_temp_file g).headers = 1 ↔ g f.read_all ≠ []) := by
  have hsz : f.sizeIsZero = true ↔ f.headers = 0 ∧ f.records = [] := by
    unfold CsvFile.sizeIsZero
    simp
  have hwf2 : (f.insert_multiple data).Wf := by
    unfold CsvFile.Wf at hwf ⊢
    rw [insert_multiple_headers_eq, insert_multiple_records_eq]
    cases data with
    | nil =>
      rw [List.append_nil]
      simpa using hwf
    | cons d ds =>
      by_cases hz : f.sizeIsZero
      · obtain ⟨h1, h2⟩ := hsz.mp hz
        rw [hz, h1, h2]
        simp
      · have hzf : f.sizeIsZero = false := by simpa using hz
        have hr : f.records ≠ [] := by
          intro hre
          apply hz
          rw [hsz]
          refine ⟨?_, hre⟩
          rw [hwf, hre]
          simp
        rw [hzf, hwf]
        simp [hr, List.isEmpty_iff]
  refine ⟨hwf2, ?_, ?_, ?_⟩
  · unfold CsvFile.Wf at hwf2
    rw [hwf2]
    by_cases h : (f.insert_multiple data).records.isEmpty <;> simp [h]
  · intro hzf
    rw [insert_multiple_headers_eq, hzf]
    simp
  · intro g
    constructor
    · unfold CsvFile.Wf CsvFile.with_temp_file writeRows readerPosByte
      by_cases h : (g f.read_all).isEmpty <;> simp [h]
    · unfold CsvFile.with_temp_file writeRows readerPosByte
      by_cases h : (g f.read_all).isEmpty
      · simp [h, List.isEmpty_iff.mp h]
      · simp [h]
        exact fun hnil => by simp [hnil] at h

/-- C6 witness: a concrete well-formed one-record file. -/
theorem header_invariant_witness :
    ((⟨1, [(⟨0, true, 10⟩ : Scaf)]⟩ : CsvFile Scaf).Wf) ∧
    (((⟨1, [(⟨0, true, 10⟩ : Scaf)]⟩ : CsvFile Scaf).insert_multiple
        [⟨1, false, 2⟩]).Wf ∧
    ((⟨1, [(⟨0, true, 10⟩ : Scaf)]⟩ : CsvFile Scaf).insert_multiple
        [⟨1, false, 2⟩]).headers ≤ 1 ∧
    ((⟨1, [(⟨0, true, 10⟩ : Scaf)]⟩ : CsvFile Scaf).sizeIsZero = false →
      ((⟨1, [(⟨0, true, 10⟩ : Scaf)]⟩ : CsvFile Scaf).insert_multiple
          [⟨1, false, 2⟩]).headers =
        (⟨1, [(⟨0, true, 10⟩ : Scaf)]⟩ : CsvFile Scaf).headers) ∧
    ∀ g : List Scaf → List Scaf,
      ((⟨1, [(⟨0, true, 10⟩ : Scaf)]⟩ : CsvFile Scaf).with_temp_file g).Wf ∧
      (((⟨1, [(⟨0, true, 10⟩ : Scaf)]⟩ : CsvFile Scaf).with_temp_file
          g).headers = 1 ↔
        g (⟨1, [(⟨0, true, 10⟩ : Scaf)]⟩ : CsvFile Scaf).read_all ≠ [])) :=
  ⟨rfl,
   header_invariant (⟨1, [(⟨0, true, 10⟩ : Scaf)]⟩ : CsvFile Scaf)
     [⟨1, false, 2⟩] rfl⟩

/-- C9: `insertMany([])` and `updateMany([])` succeed and leave the backing
file (headers and records alike) completely unchanged. -/
theorem empty_batch_noop {S I : Type} [DecidableEq I] (getId : S → I)
    (f : CsvFile S) :
    f.insert_multiple [] = f ∧ CsvFile.update_multiple getId f [] = f :=
  ⟨rfl, rfl⟩

/-- C10: when the update list contains several records with the same
identifier, the record applied to each matching stored record is the last
occurrence in input order (the one that survives the keyed-map
construction); the other duplicates are silently discarded — nothing is
appended (the record count is unchanged) and no error is raised (the
operation is total in the model). -/
theorem update_duplicate_ids_last_wins {S I : Type} [DecidableEq I]
    (getId : S → I) (f : CsvFile S) (data : List S) (hne : data ≠ [])
    (j : Nat) (hj : j < f.records.length)
    (hmatch : ∃ u ∈ data, getId u = getId f.records[j]) :
    (CsvFile.update_multiple getId f data).records.length =
      f.records.length ∧
    ∃ k, ∃ hk : k < data.length,
      getId data[k] = getId f.records[j] ∧
      (∀ m, ∀ hm : m < data.length, k < m →
        getId data[m] ≠ getId f.records[j]) ∧
      (CsvFile.update_multiple getId f data).records[j]? = some data[k] := by
  have hrec := update_multiple_records_eq getId f data hne
  constructor
  · rw [hrec, List.length_map]
  · cases hsome : updatesMap getId data (getId f.records[j]) with
    | none =>
      obtain ⟨u0, hu0, hid0⟩ := hmatch
      exact absurd hid0
        ((updatesMap_eq_none_iff getId data (getId f.records[j])).mp
          hsome u0 hu0)
    | some u =>
      obtain ⟨k, hk, hget, hid, hlast⟩ :=
        updatesMap_eq_some_last getId data (getId f.records[j]) u hsome
      refine ⟨k, hk, by rw [hget]; exact hid, hlast, ?_⟩
      rw [hrec, List.getElem?_map, List.getElem?_eq_getElem hj]
      simp [hsome, hget]

/-- C10 witness: one stored record, two updates with the same identifier;
the second update is the one applied. -/
theorem update_duplicate_ids_last_wins_witness :
    (([(⟨1, true, 10⟩ : Scaf), ⟨1, true, 20⟩] : List Scaf) ≠ []) ∧
    (0 < (⟨1, [(⟨1, true, 0⟩ : Scaf)]⟩ : CsvFile Scaf).records.length) ∧
    ((CsvFile.update_multiple Scaf.id
        (⟨1, [(⟨1, true, 0⟩ : Scaf)]⟩ : CsvFile Scaf)
        [⟨1, true, 10⟩, ⟨1, true, 20⟩]).records.length =
      (⟨1, [(⟨1, true, 0⟩ : Scaf)]⟩ : CsvFile Scaf).records.length ∧
    ∃ k, ∃ hk : k < ([(⟨1, true, 10⟩ : Scaf), ⟨1, true, 20⟩] : List Scaf).length,
      Scaf.id ([(⟨1, true, 10⟩ : Scaf), ⟨1, true, 20⟩] : List Scaf)[k] =
        Scaf.id (⟨1, [(⟨1, true, 0⟩ : Scaf)]⟩ : CsvFile Scaf).records[0] ∧
      (∀ m, ∀ hm : m <
          ([(⟨1, true, 10⟩ : Scaf), ⟨1, true, 20⟩] : List Scaf).length,
        k < m →
        Scaf.id ([(⟨1, true, 10⟩ : Scaf), ⟨1, true, 20⟩] : List Scaf)[m] ≠
          Scaf.id (⟨1, [(⟨1, true, 0⟩ : Scaf)]⟩ : CsvFile Scaf).records[0]) ∧
      (CsvFile.update_multiple Scaf.id
          (⟨1, [(⟨1, true, 0⟩ : Scaf)]⟩ : CsvFile Scaf)
          [⟨1, true, 10⟩, ⟨1, true, 20⟩]).records[0]? =
        some ([(⟨1, true, 10⟩ : Scaf), ⟨1, true, 20⟩] : List Scaf)[k]) :=
  ⟨by decide, by decide,
   update_duplicate_ids_last_wins Scaf.id
     (⟨1, [(⟨1, true, 0⟩ : Scaf)]⟩ : CsvFile Scaf)
     [⟨1, true, 10⟩, ⟨1, true, 20⟩] (by decide) 0 (by decide) (by decide)⟩

/-! ## Key-value store (src/dict.rs)

The persy engine behind `Dict` is modelled at its interface: the primary
index is the list of keyed entries in the engine's range order, each key
carrying its stored value history.  With `ValueMode::Replace` a put to an
existing key replaces the history in place; a new key is added (the model
appends it, as no claim depends on the engine's cross-key order).  Scans
resolve each key to the last entry of its history.  Values are opaque
serialized blobs of type `B`, with serialization passed in as `enc`/`dec`. -/

abbrev DictState (K B : Type) : Type := List (K × List B)

/-- Whether the index holds an entry for `k`. -/
def Dict.hasKey {K B : Type} [DecidableEq K] (st : DictState K B) (k : K) :
    Bool :=
  st.any (fun p => decide (p.1 = k))

/-- `tx.put(PRIMARY_INDEX, k, bts)` under `ValueMode::Replace`. -/
def Dict.put {K B : Type} [DecidableEq K] (st : DictState K B) (k : K)
    (b : B) : DictState K B :=
  if Dict.hasKey st k then
    st.map (fun p => if p.1 = k then (k, [b]) else p)
  else st ++ [(k, [b])]

/-- `Dict::insert`: serialize the value and put it under `k` in one
transaction. -/
def Dict.insert {K V B : Type} [DecidableEq K] (enc : V → B)
    (st : DictState K B) (k : K) (v : V) : DictState K B :=
  Dict.put st k (enc v)

/-- `self.db.one(PRIMARY_INDEX, k)`: the stored blob for `k`, resolving to
the last entry of the key's value history. -/
def Dict.one {K B : Type} [DecidableEq K] (st : DictState K B) (k : K) :
    Option B :=
  (st.find? (fun p => decide (p.1 = k))).bind (fun p => p.2.getLast?)

/-- `Dict::get`: point lookup; absence is `ok none`, a deserialization
failure is an error. -/
def Dict.get {K V B : Type} [DecidableEq K] (dec : B → Option V)
    (st : DictState K B) (k : K) : Except String (Option V) :=
  match Dict.one st k with
  | none => Except.ok none
  | some b =>
    match dec b with
    | some v => Except.ok (some v)
    | none => Except.error "deserialize error"

/-- `Dict::size`: number of keys seen by a full-range scan. -/
def Dict.size {K B : Type} (st : DictState K B) : Nat :=
  st.length

/-- The per-entry closure of `Dict::values`:
`Ok(serde_json::from_slice(&v.last().ok_or("missing value")?)?)`. -/
def entryVal {K V B : Type} (dec : B → Option V) (p : K × List B) :
    Except String V :=
  match p.2.getLast? with
  | none => Except.error "missing value"
  | some b =>
    match dec b with
    | some v => Except.ok v
    | none => Except.error "deserialize error"

/-- The per-entry closure of `Dict::pairs`: like `entryVal` but returning
the key alongside the decoded value. -/
def pairEntry {K V B : Type} (dec : B → Option V) (p : K × List B) :
    Except String (K × V) :=
  match p.2.getLast? with
  | none => Except.error "missing value"
  | some b =>
    match dec b with
    | some v => Except.ok (p.1, v)
    | none => Except.error "deserialize error"

/-- `Dict::values`: full-range scan collected into a single result
(`collect::<Result<Vec<_>, _>>` stops at the first erroneous entry). -/
def Dict.values {K V B : Type} (dec : B → Option V) (st : DictState K B) :
    Except String (List V) :=
  st.mapM (entryVal dec)

/-- `Dict::pairs`: as `Dict::values`, keeping the keys. -/
def Dict.pairs {K V B : Type} (dec : B → Option V) (st : DictState K B) :
    Except String (List (K × V)) :=
  st.mapM (pairEntry dec)

/-! ## Lemmas about the key-value store -/

theorem hasKey_put {K B : Type} [DecidableEq K] (st : DictState K B) (k : K)
    (b : B) : Dict.hasKey (Dict.put st k b) k = true := by
  unfold Dict.put
  by_cases h : Dict.hasKey st k = true
  · rw [if_pos h]
    unfold Dict.hasKey at h ⊢
    rw [List.any_eq_true] at h ⊢
    obtain ⟨p, hp, hpk⟩ := h
    exact ⟨(k, [b]),
      List.mem_map.mpr ⟨p, hp, by simp [of_decide_eq_true hpk]⟩, by simp⟩
  · rw [if_neg h]
    unfold Dict.hasKey
    rw [List.any_eq_true]
    exact ⟨(k, [b]),
      List.mem_append.mpr (Or.inr (List.mem_singleton.mpr rfl)), by simp⟩

theorem find?_map_replace {K B : Type} [DecidableEq K] (l : List (K × List B))
    (k : K) (b : B) :
    l.any (fun p => decide (p.1 = k)) = true →
    (l.map (fun p => if p.1 = k then (k, [b]) else p)).find?
      (fun p => decide (p.1 = k)) = some (k, [b]) := by
  induction l with
  | nil =>
    intro h
    simp at h
  | cons p t ih =>
    intro h
    rw [List.map_cons]
    by_cases hp : p.1 = k
    · rw [if_pos hp]
      exact List.find?_cons_of_pos _ (by simp)
    · rw [if_neg hp]
      rw [List.find?_cons_of_neg _ (by simp [hp])]
      apply ih
      rw [List.any_cons] at h
      simpa [hp] using h

theorem one_put_replace {K B : Type} [DecidableEq K] (st : DictState K B)
    (k : K) (b : B) (h : Dict.hasKey st k = true) :
    Dict.one (Dict.put st k b) k = some b := by
  unfold Dict.one Dict.put
  rw [if_pos h]
  rw [find?_map_replace st k b h]
  rfl

theorem pairEntry_eq {K V B : Type} (dec : B → Option V) (p : K × List B) :
    pairEntry dec p = (entryVal dec p).map (fun v => (p.1, v)) := by
  unfold pairEntry entryVal
  cases hl : p.2.getLast? with
  | none => rfl
  | some b =>
    cases hd : dec b with
    | none => simp [hd, Except.map]
    | some v => simp [hd, Except.map]

theorem mapM_error_of_prefix_ok {A B2 : Type} {E : Type}
    (g : A → Except E B2) (good : List A) (bad : A) (rest : List A) (e : E)
    (hgood : ∀ q ∈ good, ∃ v, g q = Except.ok v)
    (hbad : g bad = Except.error e) :
    (good ++ bad :: rest).mapM g = Except.error e := by
  induction good with
  | nil =>
    rw [List.nil_append, List.mapM_cons, hbad]
    rfl
  | cons q t ih =>
    rw [List.cons_append, List.mapM_cons]
    obtain ⟨v, hv⟩ := hgood q (List.mem_cons_self q t)
    rw [hv]
    show (t ++ bad :: rest).mapM g >>= _ = Except.error e
    rw [ih (fun q2 hq2 => hgood q2 (List.mem_cons_of_mem q hq2))]
    rfl

/-! ## Claim theorems for the key-value store -/

/-- C3: a second insert to the same key replaces the value and never
produces a duplicate key — after `insert(k, v1)` then `insert(k, v2)`,
`get(k)` returns `v2` and `size()` is unchanged from before the second
insert (assuming the serialization round-trips on `v2`, as serde does). -/
theorem insert_upsert_get_last {K V B : Type} [DecidableEq K]
    (enc : V → B) (dec : B → Option V) (st : DictState K B) (k : K)
    (v1 v2 : V) (hrt : dec (enc v2) = some v2) :
    Dict.get dec (Dict.insert enc (Dict.insert enc st k v1) k v2) k =
      Except.ok (some v2) ∧
    Dict.size (Dict.insert enc (Dict.insert enc st k v1) k v2) =
      Dict.size (Dict.insert enc st k v1) := by
  have hk1 : Dict.hasKey (Dict.insert enc st k v1) k = true :=
    hasKey_put st k (enc v1)
  constructor
  · have hone :
        Dict.one (Dict.insert enc (Dict.insert enc st k v1) k v2) k =
          some (enc v2) :=
      one_put_replace (Dict.insert enc st k v1) k (enc v2) hk1
    unfold Dict.get
    rw [hone]
    simp [hrt]
  · show Dict.size (Dict.put (Dict.insert enc st k v1) k (enc v2)) = _
    unfold Dict.put
    rw [if_pos hk1]
    unfold Dict.size
    exact List.length_map _ _

/-- C3 witness: identity serialization over `Nat`, key `0`, values `1`
then `2`. -/
theorem insert_upsert_get_last_witness :
    ((fun b : Nat => some b) ((fun v : Nat => v) 2) = some 2) ∧
    (Dict.get (fun b : Nat => some b)
        (Dict.insert (fun v : Nat => v)
          (Dict.insert (fun v : Nat => v) ([] : DictState Nat Nat) 0 1) 0 2)
        0 = Except.ok (some 2) ∧
     Dict.size (Dict.insert (fun v : Nat => v)
        (Dict.insert (fun v : Nat => v) ([] : DictState Nat Nat) 0 1) 0 2) =
      Dict.size (Dict.insert (fun v : Nat => v) ([] : DictState Nat Nat) 0 1)) :=
  ⟨rfl,
   insert_upsert_get_last (fun v : Nat => v) (fun b : Nat => some b)
     ([] : DictState Nat Nat) 0 1 2 rfl⟩

/-- C7: `values`/`pairs` abort with an error at the first corrupt entry of
the scan (no silent skip, no success), and a key whose stored value history
is empty yields the internal error `"missing value"` rather than being
ignored. -/
theorem scan_errors_on_corrupt_entry {K V B : Type} (dec : B → Option V)
    (good : List (K × List B)) (bad : K × List B) (rest : List (K × List B))
    (e : String)
    (hgood : ∀ q ∈ good, ∃ v, entryVal dec q = Except.ok v)
    (hbad : entryVal dec bad = Except.error e) :
    Dict.values dec (good ++ bad :: rest) = Except.error e ∧
    Dict.pairs dec (good ++ bad :: rest) = Except.error e ∧
    ∀ k2 : K, entryVal dec (k2, ([] : List B)) =
      Except.error "missing value" := by
  refine ⟨?_, ?_, fun k2 => rfl⟩
  · exact mapM_error_of_prefix_ok (entryVal dec) good bad rest e hgood hbad
  · apply mapM_error_of_prefix_ok (pairEntry dec) good bad rest e
    · intro q hq
      obtain ⟨v, hv⟩ := hgood q hq
      exact ⟨(q.1, v), by rw [pairEntry_eq, hv]; rfl⟩
    · rw [pairEntry_eq, hbad]
      rfl

/-- C7 witness: a good entry, then a key with an empty history, then a
further entry that is never reached. -/
theorem scan_errors_on_corrupt_entry_witness :
    Dict.values (fun b : Nat => if b = 99 then none else some b)
        (([((1 : Nat), [(5 : Nat)])] : DictState Nat Nat) ++
          ((2 : Nat), ([] : List Nat)) :: [((3 : Nat), [(7 : Nat)])]) =
      Except.error "missing value" ∧
    Dict.pairs (fun b : Nat => if b = 99 then none else some b)
        (([((1 : Nat), [(5 : Nat)])] : DictState Nat Nat) ++
          ((2 : Nat), ([] : List Nat)) :: [((3 : Nat), [(7 : Nat)])]) =
      Except.error "missing value" ∧
    ∀ k2 : Nat, entryVal (fun b : Nat => if b = 99 then none else some b)
        (k2, ([] : List Nat)) = Except.error "missing value" :=
  scan_errors_on_corrupt_entry (fun b : Nat => if b = 99 then none else some b)
    [((1 : Nat), [(5 : Nat)])] ((2 : Nat), ([] : List Nat))
    [((3 : Nat), [(7 : Nat)])] "missing value"
    (by
      intro q hq
      rw [List.mem_singleton] at hq
      subst hq
      exact ⟨5, rfl⟩)
    rfl

/-! ## Path extension checks (construction of both stores)

The only part of construction the claims depend on is the extension check,
which in the source runs before any filesystem access.  `Path::extension`
of the Rust standard library is modelled over path strings; the filesystem
is abstracted: the unused boolean argument of the constructors records
whether a file exists at the path, and the outcome does not depend on it,
mirroring that the check precedes all I/O. -/

/-- Split a character list at every occurrence of `sep` (the separator is
dropped; adjacent separators yield empty segments), the list-splitting
primitive underlying path-component and extension parsing. -/
def splitOnChar (sep : Char) : List Char → List (List Char)
  | [] => [[]]
  | c :: cs =>
    match splitOnChar sep cs with
    | [] => [[]]
    | g :: gs => if c = sep then [] :: g :: gs else (c :: g) :: gs

/-- `Path::file_name` of a path string: the last non-empty, non-`.`
component, unless it is `..`. -/
def fileName (p : String) : Option (List Char) :=
  match ((splitOnChar '/' p.toList).filter
      (fun c => decide (c ≠ [] ∧ c ≠ ['.']))).getLast? with
  | none => none
  | some c => if c = ['.', '.'] then none else some c

/-- `Path::extension` of a path string: the portion of the file name after
its last `.`; absent when there is no file name, the file name contains no
`.`, or its only `.` is the leading dot of a hidden file. -/
def extension (p : String) : Option (List Char) :=
  match fileName p with
  | none => none
  | some name =>
    match splitOnChar '.' name with
    | [] => none
    | [_] => none
    | first :: rest =>
      if first = [] ∧ rest.length = 1 then none else rest.getLast?

/-- `Rows::new`: `url.extension().map_or(true, |ext| ext != "csv")` fails
with `Bad extension!` before the backing file is opened or created. -/
def Rows.new (path : String) (_fileExists : Bool) : Except String Unit :=
  if ((extension path).map (fun e => decide (e ≠ "csv".toList))).getD true then
    Except.error "Bad extension!"
  else Except.ok ()

/-- `Dict::new`: `url.extension().map_or(true, |ext| ext != "persy")` fails
with `Bad extension!` before the engine opens the path. -/
def Dict.new (path : String) (_fileExists : Bool) : Except String Unit :=
  if ((extension path).map (fun e => decide (e ≠ "persy".toList))).getD true then
    Except.error "Bad extension!"
  else Except.ok ()

theorem bad_ext_cond (path : String) (s : List Char)
    (h : extension path ≠ some s) :
    ((extension path).map (fun e => decide (e ≠ s))).getD true = true := by
  cases hx : extension path with
  | none => rfl
  | some e =>
    have he : e ≠ s := fun he2 => h (by rw [hx, he2])
    simp [he]

/-- C8: for every path string, construction of either store fails when the
path lacks the backend-specific extension (`csv` for the flat-file store,
`persy` for the engine store), and on that branch the outcome is
independent of whether a file exists at the path. -/
theorem new_bad_extension_fails (path : String) (ex1 ex2 : Bool) :
    (extension path ≠ some "csv".toList →
      Rows.new path ex1 = Except.error "Bad extension!" ∧
      Rows.new path ex1 = Rows.new path ex2) ∧
    (extension path ≠ some "persy".toList →
      Dict.new path ex1 = Except.error "Bad extension!" ∧
      Dict.new path ex1 = Dict.new path ex2) := by
  constructor
  · intro h
    refine ⟨?_, rfl⟩
    unfold Rows.new
    rw [bad_ext_cond path "csv".toList h]
    rfl
  · intro h
    refine ⟨?_, rfl⟩
    unfold Dict.new
    rw [bad_ext_cond path "persy".toList h]
    rfl

/-- C8 witness: the empty path (no extension at all) and `data.txt` (wrong
extension), the inputs of the repository's own `test_fail` tests, each with
both possible file-existence states. -/
theorem new_bad_extension_fails_witness :
    (Rows.new "" true = Except.error "Bad extension!" ∧
     Rows.new "" true = Rows.new "" false) ∧
    (Dict.new "" true = Except.error "Bad extension!" ∧
     Dict.new "" true = Dict.new "" false) ∧
    (Rows.new "data.txt" true = Except.error "Bad extension!" ∧
     Dict.new "data.txt" true = Except.error "Bad extension!") :=
  ⟨(new_bad_extension_fails "" true false).1 (by decide),
   (new_bad_extension_fails "" true false).2 (by decide),
   ((new_bad_extension_fails "data.txt" true false).1 (by decide)).1,
   ((new_bad_extension_fails "data.txt" true false).2 (by decide)).1⟩

end Rotools
